import Mathlib

/-!
Verification of the reactive signal engine of this repository.

Two embeddings are developed, following the two implementation files:

* namespace `SL` — a shallow embedding of `signal_library.py`
  (`Signal`, `Effect`, dependency tracking, disposal).  Python objects are
  addressed by natural-number identities; a `WeakSet` of subscribers becomes a
  `Finset Nat`; the `asyncio` coroutine of an `Effect` is opaque user code, so
  an execution is parameterised by the list of signals it reads.
* namespace `Sch` — a shallow embedding of `src/reaktiv/scheduler.py`
  (batch depth, the intrusive singly linked pending list, the flush loop).
  The effect callback `_run_callback` is user code and is passed as a
  parameter `cb`; its boolean result records whether it raised.

A small structured-program model `BProg` captures nesting of `batch()` scopes
and `start_batch`/`end_batch` pairs, and `RModel` models the `Computed` node
with a fallback default, which is described by the documentation but whose
implementation file is not part of the sources here.
-/

namespace SL

/-- State of one `Signal` from `signal_library.py`: the stored `_value` and the
`_subscribers` weak set (modelled as a `Finset` of effect identities). -/
@[ext]
structure SigState (V : Type) where
  value : V
  subscribers : Finset Nat
  deriving DecidableEq

/-- State of one `Effect` from `signal_library.py`: the `_scheduled` and
`_disposed` flags, `_dependencies`, `_new_dependencies`, and a ghost counter
`runs` counting how many times the wrapped coroutine has been invoked. -/
@[ext]
structure EffState where
  scheduled : Bool
  disposed : Bool
  dependencies : Finset Nat
  newDependencies : Option (Finset Nat)
  runs : Nat
  deriving DecidableEq

/-- The heap: every signal identity and effect identity maps to its state. -/
@[ext]
structure State (V : Type) where
  sigs : Nat → SigState V
  effs : Nat → EffState

variable {V : Type}

/-- `Effect.__init__`: the coroutine is stored; nothing runs, nothing is
scheduled, the dependency set starts empty. -/
def Effect.init : EffState :=
  { scheduled := false, disposed := false, dependencies := ∅,
    newDependencies := none, runs := 0 }

/-- Creation of a fresh `Effect` object under identity `e`. -/
def createEffect (st : State V) (e : Nat) : State V :=
  { st with effs := fun i => if i = e then Effect.init else st.effs i }

/-- The state change `Effect.schedule` performs on the effect's own record:
return early when `_disposed` or `_scheduled`, otherwise set `_scheduled`
(and create the `_execute` task). -/
def EffState.sched (es : EffState) : EffState :=
  if es.disposed || es.scheduled then es else { es with scheduled := true }

/-- `Effect.schedule`: only the effect's own record is touched. -/
def Effect.schedule (st : State V) (e : Nat) : State V :=
  { st with effs := fun i => if i = e then (st.effs i).sched else st.effs i }

/-- `Effect.add_dependency`: return early when disposed or when no evaluation
is in progress (`_new_dependencies is None`); otherwise record the edge. -/
def Effect.add_dependency (st : State V) (e s : Nat) : State V :=
  if (st.effs e).disposed then st
  else
    match (st.effs e).newDependencies with
    | none => st
    | some nd =>
        { st with effs := fun i => if i = e then
            { st.effs i with newDependencies := some (insert s nd) } else st.effs i }

/-- `Signal.get`: returns the value; when a current effect is active, records
the dependency edge via `add_dependency`. -/
def Signal.get (st : State V) (s : Nat) (reader : Option Nat) : V × State V :=
  match reader with
  | none => ((st.sigs s).value, st)
  | some e => ((st.sigs s).value, Effect.add_dependency st e s)

/-- `Signal.set`: when the new value equals the current one, return without
any change; otherwise store the value and call `schedule` on every
subscriber (each such call touches only that effect's record, so the
iteration is modelled pointwise). -/
def Signal.set [DecidableEq V] (st : State V) (s : Nat) (v : V) : State V :=
  if (st.sigs s).value = v then st
  else
    let st1 : State V :=
      { st with sigs := fun i => if i = s then { st.sigs i with value := v } else st.sigs i }
    { st1 with effs := fun i =>
        if i ∈ (st.sigs s).subscribers then (st1.effs i).sched else st1.effs i }

/-- First half of `Effect._execute`, up to the coroutine starting: clear
`_scheduled`; if disposed, stop; otherwise open a fresh `_new_dependencies`
set and invoke the coroutine (counted by `runs`). -/
def Effect.execStart (st : State V) (e : Nat) : State V :=
  let st0 : State V :=
    { st with effs := fun i => if i = e then { st.effs i with scheduled := false } else st.effs i }
  if (st0.effs e).disposed then st0
  else
    { st0 with effs := fun i => if i = e then
        { st0.effs i with newDependencies := some ∅, runs := (st0.effs i).runs + 1 }
      else st0.effs i }

/-- Second half of `Effect._execute`, after the coroutine returned: if
disposed meanwhile, stop; otherwise unsubscribe from signals no longer read,
subscribe to newly read signals, and replace the dependency set wholesale.
The `none` branch of `_new_dependencies` is unreachable in a real execution
because the first half always opens the set. -/
def Effect.execFinish (st : State V) (e : Nat) : State V :=
  if (st.effs e).disposed then st
  else
    match (st.effs e).newDependencies with
    | none => st
    | some nd =>
        let old := (st.effs e).dependencies
        let st1 : State V :=
          { st with sigs := fun s => if s ∈ old \ nd then
              { st.sigs s with subscribers := (st.sigs s).subscribers.erase e } else st.sigs s }
        let st2 : State V :=
          { st1 with sigs := fun s => if s ∈ nd \ old then
              { st1.sigs s with subscribers := insert e (st1.sigs s).subscribers } else st1.sigs s }
        { st2 with effs := fun i => if i = e then
            { st2.effs i with dependencies := nd, newDependencies := none } else st2.effs i }

/-- A complete, uninterrupted run of `Effect._execute` whose coroutine reads
the signals in `reads` (in order). -/
def Effect.executeRun (st : State V) (e : Nat) (reads : List Nat) : State V :=
  Effect.execFinish (reads.foldl (fun a s => (Signal.get a s (some e)).2) (Effect.execStart st e)) e

/-- `Effect.dispose`: if already disposed, return; otherwise set `_disposed`,
unsubscribe from every tracked dependency, and clear the dependency set. -/
def Effect.dispose (st : State V) (e : Nat) : State V :=
  if (st.effs e).disposed then st
  else
    let st1 : State V :=
      { st with effs := fun i => if i = e then { st.effs i with disposed := true } else st.effs i }
    let st2 : State V :=
      { st1 with sigs := fun s => if s ∈ (st.effs e).dependencies then
          { st1.sigs s with subscribers := (st1.sigs s).subscribers.erase e } else st1.sigs s }
    { st2 with effs := fun i => if i = e then
        { st2.effs i with dependencies := ∅ } else st2.effs i }

/-- Concrete heap with two effects subscribed to signal `0`, used to witness
the claim theorems at explicit inputs. -/
def stW : State Nat :=
  { sigs := fun i => if i = 0 then { value := 1, subscribers := {0, 1} } else
      { value := 0, subscribers := ∅ },
    effs := fun _ => Effect.init }

/-- Concrete heap where effect `0` currently depends on signal `0` (and is
subscribed there), used to witness the dependency-swap theorem. -/
def stW2 : State Nat :=
  { sigs := fun i => if i = 0 then { value := 1, subscribers := {0} } else
      { value := 2, subscribers := ∅ },
    effs := fun i => if i = 0 then { Effect.init with dependencies := {0} } else Effect.init }

/-- The operations that can hit the heap after some point in time: scheduling,
the two halves of `_execute` with the tracked reads in between, disposal, and
signal writes.  An `_execute` suspended at an `await` is a trace where other
operations sit between its `execStart` and its `execFinish`. -/
inductive Op (V : Type) where
  | schedule (e : Nat)
  | execStart (e : Nat)
  | read (e s : Nat)
  | execFinish (e : Nat)
  | dispose (e : Nat)
  | setSig (s : Nat) (v : V)

/-- Interpretation of one operation. -/
def applyOp {V : Type} [DecidableEq V] (st : State V) : Op V → State V
  | .schedule e => Effect.schedule st e
  | .execStart e => Effect.execStart st e
  | .read e s => (Signal.get st s (some e)).2
  | .execFinish e => Effect.execFinish st e
  | .dispose e => Effect.dispose st e
  | .setSig s v => Signal.set st s v

/-- Interpretation of a whole trace of operations. -/
def applyOps {V : Type} [DecidableEq V] (st : State V) (ops : List (Op V)) : State V :=
  ops.foldl applyOp st

/-- A sample trace used to witness the disposal theorem at a concrete input. -/
def opsW : List (Op Nat) :=
  [Op.schedule 0, Op.execStart 0, Op.read 0 1, Op.execFinish 0, Op.setSig 0 7, Op.dispose 0]

end SL

namespace Sch

/-- The NOTIFIED and DISPOSED bits of an effect's `_flags` word. -/
structure EffFlags where
  notified : Bool
  disposed : Bool
  deriving DecidableEq

/-- Global scheduler state from `scheduler.py` (`graph.batch_depth` and
`graph.batched_effect_head`) together with the per-effect intrusive fields
its code reads: `_next_batched_effect`, `_flags`, and the result of
`_needs_run()`. -/
structure Core where
  batchDepth : Int
  head : Option Nat
  next : Nat → Option Nat
  flags : Nat → EffFlags
  needsRun : Nat → Bool

/-- Scheduler state together with a ghost log of the callbacks invoked, in
order. -/
structure FState where
  core : Core
  log : List Nat

/-- `enqueue_effect`: when the pending list is non-empty, point the effect's
intrusive next pointer at the old head; then make the effect the new head.
No flag is read or written here. -/
def enqueue_effect (c : Core) (e : Nat) : Core :=
  let c1 : Core := if c.head ≠ none then
    { c with next := fun i => if i = e then c.head else c.next i } else c
  { c1 with head := some e }

/-- Modelled from the spec: the notification step of the Effect class lives in
the package's core module, which is absent from the sources here; per §4.3 it
reads "if `e.NOTIFIED` is already set, no-op; else set it and prepend `e`". -/
def notifyEffect (c : Core) (e : Nat) : Core :=
  if (c.flags e).notified then c
  else enqueue_effect
    { c with flags := fun i => if i = e then { c.flags i with notified := true } else c.flags i } e

/-- One guarded callback invocation from the flush walk: run only when the
effect is neither DISPOSED nor without work (`not (flags & DISPOSED) and
needs_run()`); an exception inside the callback (the boolean component) is
caught and only logged, never re-raised. -/
def runOne (cb : Nat → Core → Core × Bool) (cur : Nat) (st : FState) : FState :=
  if !(st.core.flags cur).disposed && st.core.needsRun cur then
    { core := (cb cur st.core).1, log := st.log ++ [cur] }
  else st

/-- The per-effect bookkeeping of the flush walk, done before the guarded
run: clear the intrusive next pointer and clear NOTIFIED. -/
def clearStep (cur : Nat) (st : FState) : FState :=
  { st with core :=
    { st.core with
        next := fun i => if i = cur then none else st.core.next i,
        flags := fun i => if i = cur then { st.core.flags i with notified := false }
                          else st.core.flags i } }

/-- The inner walk of `_flush_effects` over a snapshot of the pending list:
read the next pointer (before it is cleared), clear it and NOTIFIED, run the
guarded callback, move on.  `fuel` bounds the traversal so the function is
total; a well-formed chain is finite and never exhausts it. -/
def passWalk (cb : Nat → Core → Core × Bool) : Nat → Option Nat → FState → FState
  | _, none, st => st
  | 0, some _, st => st
  | fuel + 1, some cur, st =>
      passWalk cb fuel (st.core.next cur) (runOne cb cur (clearStep cur st))

/-- The error taxonomy of the flush loop: the cycle guard. -/
inductive FlushErr where
  | reactiveCycleExceeded
  deriving DecidableEq

/-- The outer loop of `_flush_effects`: while the pending list is non-empty,
snapshot the head, clear it, walk the snapshot.  `rem` counts the outer
iterations still allowed before `iterations > MAX_BATCH_ITERATIONS` raises. -/
def flushLoop (cb : Nat → Core → Core × Bool) (wf : Nat) : Nat → FState → Except FlushErr FState
  | 0, st => if st.core.head = none then .ok st else .error .reactiveCycleExceeded
  | rem + 1, st =>
      if st.core.head = none then .ok st
      else flushLoop cb wf rem
        (passWalk cb wf st.core.head { st with core := { st.core with head := none } })

/-- `_flush_effects`: return immediately while the batch depth is positive,
otherwise drain with the configured iteration bound `maxIter`. -/
def flush_effects (cb : Nat → Core → Core × Bool) (wf maxIter : Nat) (st : FState) :
    Except FlushErr FState :=
  if 0 < st.core.batchDepth then .ok st else flushLoop cb wf maxIter st

/-- `start_batch`, the entry half of the wrapper around `Signal.set`. -/
def start_batch (st : FState) : FState :=
  { st with core := { st.core with batchDepth := st.core.batchDepth + 1 } }

/-- `end_batch`: decrement the depth and flush when it reaches zero. -/
def end_batch (cb : Nat → Core → Core × Bool) (wf maxIter : Nat) (st : FState) :
    Except FlushErr FState :=
  let st1 : FState := { st with core := { st.core with batchDepth := st.core.batchDepth - 1 } }
  if st1.core.batchDepth = 0 then flush_effects cb wf maxIter st1 else .ok st1

/-- The intrusive pending list starting at `h` spells out exactly the list
`l` and terminates at `none`. -/
def isChain (next : Nat → Option Nat) : Option Nat → List Nat → Prop
  | h, [] => h = none
  | h, a :: t => h = some a ∧ isChain next (next a) t

instance decIsChain (next : Nat → Option Nat) :
    (h : Option Nat) → (l : List Nat) → Decidable (isChain next h l)
  | h, [] => inferInstanceAs (Decidable (h = none))
  | h, a :: t =>
      haveI := decIsChain next (next a) t
      inferInstanceAs (Decidable (h = some a ∧ isChain next (next a) t))

/-- Concrete scheduler core whose effect `0` already has NOTIFIED set while
the pending list is empty — the input on which the claimed no-op behaviour of
`enqueue_effect` fails. -/
def c6cex : Core :=
  { batchDepth := 0, head := none, next := fun _ => none,
    flags := fun _ => { notified := true, disposed := false },
    needsRun := fun _ => true }

/-- Concrete scheduler core with pending chain `[1]` (effect `1` NOTIFIED)
and effect `0` not yet notified, for the protocol witness. -/
def cW6 : Core :=
  { batchDepth := 0, head := some 1, next := fun _ => none,
    flags := fun i => if i = 1 then { notified := true, disposed := false }
                      else { notified := false, disposed := false },
    needsRun := fun _ => true }

/-- A callback that re-enqueues its own effect on every run — the runaway
feedback the cycle guard exists for. -/
def cbCycle : Nat → Core → Core × Bool :=
  fun e c => (enqueue_effect c e, false)

/-- Scheduler state with effect `0` pending and runnable, feeding `cbCycle`. -/
def stC7 : FState :=
  { core := { batchDepth := 0, head := some 0, next := fun _ => none,
              flags := fun _ => { notified := true, disposed := false },
              needsRun := fun _ => true },
    log := [] }

/-- A callback that raises on every invocation and touches nothing. -/
def cbRaise : Nat → Core → Core × Bool :=
  fun _ c => (c, true)

/-- Scheduler state with pending chain `[0, 1]`, both effects runnable. -/
def stC8 : FState :=
  { core := { batchDepth := 0, head := some 0,
              next := fun i => if i = 0 then some 1 else none,
              flags := fun _ => { notified := true, disposed := false },
              needsRun := fun _ => true },
    log := [] }

/-- Scheduler state inside a nested batch (depth `2`) with work pending. -/
def stC3 : FState :=
  { core := { batchDepth := 2, head := some 0, next := fun _ => none,
              flags := fun _ => { notified := true, disposed := false },
              needsRun := fun _ => true },
    log := [] }

/-- Invariant of the runaway-feedback witness: effect `0` is always pending
(chained alone), live and runnable — `cbCycle` re-establishes this on every
pass, so the drain never terminates. -/
def cycleInv (s : FState) : Prop :=
  s.core.head = some 0 ∧ s.core.next 0 = none ∧
  (s.core.flags 0).disposed = false ∧ s.core.needsRun 0 = true

end Sch

namespace Batching

/-- Structured programs of nested `batch()` scopes and signal writes: `write`
models the `start_batch(); ...; end_batch()` pair wrapped around one
`Signal.set` notification, `scope p` models the `batch()` context manager
around `p`. -/
inductive BProg where
  | skip
  | write
  | scope (p : BProg)
  | seq (p q : BProg)

/-- Run a program from a (depth, flush count) pair.  Entering a scope or a
write increments `graph.batch_depth`, exiting decrements it, and
`_flush_effects` is invoked (counted) exactly when the decremented depth is
`0`. -/
def runB : BProg → Int × Nat → Int × Nat
  | .skip, s => s
  | .write, (d, f) => if d + 1 - 1 = 0 then (d + 1 - 1, f + 1) else (d + 1 - 1, f)
  | .scope p, (d, f) =>
      let s1 := runB p (d + 1, f)
      if s1.1 - 1 = 0 then (s1.1 - 1, s1.2 + 1) else (s1.1 - 1, s1.2)
  | .seq p q, s => runB q (runB p s)

/-- Every depth value reached at an enter/exit point while running the
program from depth `d`. -/
def traceB : BProg → Int → List Int
  | .skip, _ => []
  | .write, d => [d + 1, d + 1 - 1]
  | .scope p, d => (d + 1) :: (traceB p (d + 1) ++ [(runB p (d + 1, 0)).1 - 1])
  | .seq p q, d => traceB p d ++ traceB q ((runB p (d, 0)).1)

end Batching

namespace RModel

/-- Error taxonomy of Computed evaluation. -/
inductive CErr where
  | computeFailed
  deriving DecidableEq

/-- Modelled from the spec: the Computed node (§4.5) lives in the package's
core module, absent from the sources here — a compute function (returning
`none` models it raising), an optional fallback `default`, the cached value,
the dirty flag and the equality predicate. -/
structure Computed (I T : Type) where
  compute : I → Option T
  default : Option T
  value : Option T
  dirty : Bool
  equal : T → T → Bool

/-- Modelled from the spec: the propagation decision compares the candidate
new cached value against the previous cached value with the node's equality
predicate; `true` means observers get notified (a first fill always does). -/
def changedFlag {I T : Type} (c : Computed I T) (v : T) : Bool :=
  match c.value with
  | some old => !(c.equal old v)
  | none => true

/-- Modelled from the spec: re-evaluation (§4.5) — a successful `compute`
caches and returns its result; a raising `compute` caches and returns the
configured default exactly as if it were the real result (same caching, same
`changedFlag` propagation decision), or surfaces `ComputeFailed` when no
default is configured. -/
def evalComputed {I T : Type} (c : Computed I T) (inp : I) :
    Except CErr (T × Bool × Computed I T) :=
  match c.compute inp with
  | some v => .ok (v, changedFlag c v, { c with value := some v, dirty := false })
  | none =>
      match c.default with
      | some d => .ok (d, changedFlag c d, { c with value := some d, dirty := false })
      | none => .error .computeFailed

/-- Modelled from the spec: a read returns the cached value when clean and
re-evaluates when dirty or never computed. -/
def getComputed {I T : Type} (c : Computed I T) (inp : I) :
    Except CErr (T × Bool × Computed I T) :=
  if c.dirty then evalComputed c inp
  else
    match c.value with
    | some v => .ok (v, false, c)
    | none => evalComputed c inp

/-- Upstream change: mark the node dirty. -/
def markDirty {I T : Type} (c : Computed I T) : Computed I T :=
  { c with dirty := true }

/-- Concrete Computed: division with a fallback default of `9`, mirroring the
division-by-zero example of the documentation. -/
def cW5 : Computed Nat Nat :=
  { compute := fun n => if n = 0 then none else some (100 / n),
    default := some 9, value := some 50, dirty := true,
    equal := fun a b => a == b }

end RModel

namespace SchThm

/-- Helper: a chain is insensitive to next-pointer changes outside its
elements. -/
theorem isChain_congr (next next2 : Nat → Option Nat) :
    ∀ (l : List Nat) (h : Option Nat), (∀ x ∈ l, next2 x = next x) →
      Sch.isChain next h l → Sch.isChain next2 h l := by
  intro l
  induction l with
  | nil => intro h _ hc; exact hc
  | cons a t ih =>
      intro h hx hc
      obtain ⟨h1, h2⟩ := hc
      refine ⟨h1, ?_⟩
      rw [hx a (by simp)]
      exact ih (next a) (fun x hxt => hx x (by simp [hxt])) h2

/-- Helper: the chain of an empty pending list is empty. -/
theorem isChain_none (next : Nat → Option Nat) (l : List Nat)
    (h : Sch.isChain next none l) : l = [] := by
  cases l with
  | nil => rfl
  | cons a t => exact absurd h.1 (by simp)

/-- C6 counterexample: on the core `c6cex`, whose effect `0` already has
NOTIFIED set and whose pending list is empty, `enqueue_effect` is not a
no-op — it prepends effect `0` anyway — and it never writes the NOTIFIED
flag either. -/
theorem enqueue_ignores_notified_cex :
    (Sch.c6cex.flags 0).notified = true ∧
    Sch.c6cex.head = none ∧
    (Sch.enqueue_effect Sch.c6cex 0).head = some 0 ∧
    (Sch.enqueue_effect Sch.c6cex 0).head ≠ Sch.c6cex.head ∧
    ((Sch.enqueue_effect Sch.c6cex 0).flags 0).notified = true := by
  decide

/-- C6 (amended): `enqueue_effect` itself unconditionally prepends the effect
to the intrusive pending list and neither reads nor writes NOTIFIED; the
NOTIFIED gate belongs to the notification step of the caller (modelled from
the spec as `notifyEffect`), and under that protocol — every enqueued effect
is NOTIFIED and enqueueing is skipped when NOTIFIED is set — the pending
chain contains each effect at most once at all times. -/
theorem enqueue_prepend_protocol (c : Sch.Core) (e : Nat) (l : List Nat)
    (hch : Sch.isChain c.next c.head l) (hnd : l.Nodup)
    (hnot : ∀ x ∈ l, (c.flags x).notified = true)
    (hoff : ∀ x, x ∉ l → c.next x = none) :
    (Sch.enqueue_effect c e).head = some e ∧
    (∀ i, (Sch.enqueue_effect c e).flags i = c.flags i) ∧
    (Sch.isChain (Sch.notifyEffect c e).next (Sch.notifyEffect c e).head
        (if (c.flags e).notified then l else e :: l) ∧
      (if (c.flags e).notified then l else e :: l).Nodup ∧
      (∀ x ∈ (if (c.flags e).notified then l else e :: l),
        ((Sch.notifyEffect c e).flags x).notified = true) ∧
      (∀ x, x ∉ (if (c.flags e).notified then l else e :: l) →
        (Sch.notifyEffect c e).next x = none)) := by
  refine ⟨rfl, ?_, ?_⟩
  · intro i
    by_cases hh : c.head = none <;> simp [Sch.enqueue_effect, hh]
  · by_cases hn : (c.flags e).notified = true
    · simp only [if_pos hn]
      have hid : Sch.notifyEffect c e = c := by rw [Sch.notifyEffect, if_pos hn]
      rw [hid]
      exact ⟨hch, hnd, hnot, hoff⟩
    · have hne : e ∉ l := fun hc => hn (hnot e hc)
      simp only [if_neg hn]
      have hnf : Sch.notifyEffect c e =
          Sch.enqueue_effect
            { c with flags := fun i => if i = e then { c.flags i with notified := true }
                              else c.flags i } e := by
        rw [Sch.notifyEffect, if_neg hn]
      rw [hnf]
      by_cases hh : c.head = none
      · have hl : l = [] := by
          apply isChain_none c.next
          rw [← hh]
          exact hch
        subst hl
        refine ⟨⟨?_, ?_⟩, ?_, ?_, ?_⟩
        · simp [Sch.enqueue_effect, hh]
        · simp [Sch.enqueue_effect, hh]
          exact hoff e (List.not_mem_nil e)
        · simp
        · intro x hx
          simp only [List.mem_cons, List.not_mem_nil, or_false] at hx
          subst hx
          simp [Sch.enqueue_effect, hh]
        · intro x hx
          simp only [List.mem_cons, List.not_mem_nil, or_false] at hx
          simp [Sch.enqueue_effect, hh]
          exact hoff x (List.not_mem_nil x)
      · refine ⟨⟨?_, ?_⟩, ?_, ?_, ?_⟩
        · simp [Sch.enqueue_effect, hh]
        · have hnx : (Sch.enqueue_effect
              { c with flags := fun i => if i = e then { c.flags i with notified := true }
                                else c.flags i } e).next e = c.head := by
            simp [Sch.enqueue_effect, hh]
          rw [hnx]
          apply isChain_congr c.next
          · intro x hxl
            have hxe : x ≠ e := fun hxe => hne (hxe ▸ hxl)
            simp [Sch.enqueue_effect, hh, hxe]
          · exact hch
        · exact List.nodup_cons.2 ⟨hne, hnd⟩
        · intro x hx
          rcases List.mem_cons.1 hx with h1 | h1
          · subst h1
            simp [Sch.enqueue_effect, hh]
          · have hxe : x ≠ e := fun hxe => hne (hxe ▸ h1)
            simp [Sch.enqueue_effect, hh, hxe]
            exact hnot x h1
        · intro x hx
          have hxe : x ≠ e := fun hxe => hx (hxe ▸ List.mem_cons_self e l)
          have hxl : x ∉ l := fun hc => hx (List.mem_cons_of_mem e hc)
          simp [Sch.enqueue_effect, hh, hxe]
          exact hoff x hxl

/-- Witness for C6: on the core `cW6` with pending chain `[1]`, notifying the
un-notified effect `0` yields the duplicate-free chain `[0, 1]`, and
`enqueue_effect` prepends. -/
theorem enqueue_prepend_protocol_witness :
    (Sch.enqueue_effect Sch.cW6 0).head = some 0 ∧
    Sch.isChain (Sch.notifyEffect Sch.cW6 0).next (Sch.notifyEffect Sch.cW6 0).head [0, 1] ∧
    ([0, 1] : List Nat).Nodup :=
  ⟨(enqueue_prepend_protocol Sch.cW6 0 [1] (by decide) (by decide) (by decide)
      (fun x hx => rfl)).1,
   (enqueue_prepend_protocol Sch.cW6 0 [1] (by decide) (by decide) (by decide)
      (fun x hx => rfl)).2.2.1,
   (enqueue_prepend_protocol Sch.cW6 0 [1] (by decide) (by decide) (by decide)
      (fun x hx => rfl)).2.2.2.1⟩

/-- Helper: when an invariant keeps the pending list non-empty across passes,
the drain loop exhausts any iteration budget and reports the cycle. -/
theorem flushLoop_error (cb : Nat → Sch.Core → Sch.Core × Bool) (wf : Nat)
    (P : Sch.FState → Prop)
    (hP : ∀ s, P s → s.core.head ≠ none)
    (hstep : ∀ s, P s →
      P (Sch.passWalk cb wf s.core.head { s with core := { s.core with head := none } })) :
    ∀ (rem : Nat) (s : Sch.FState), P s →
      Sch.flushLoop cb wf rem s = .error .reactiveCycleExceeded := by
  intro rem
  induction rem with
  | zero =>
      intro s hs
      simp only [Sch.flushLoop]
      rw [if_neg (hP s hs)]
  | succ r ih =>
      intro s hs
      simp only [Sch.flushLoop]
      rw [if_neg (hP s hs)]
      exact ih _ (hstep s hs)

/-- Helper: a flush with nothing pending succeeds immediately. -/
theorem flushLoop_ok_of_none (cb : Nat → Sch.Core → Sch.Core × Bool) (wf : Nat) :
    ∀ (rem : Nat) (s : Sch.FState), s.core.head = none → Sch.flushLoop cb wf rem s = .ok s := by
  intro rem s h
  cases rem <;> simp [Sch.flushLoop, h]

/-- C7: when the effects being run keep the pending list non-empty on every
outer pass (invariant `P`), the drain loop exhausts the configured iteration
bound and reports `ReactiveCycleExceeded`; the error surfaces from
`_flush_effects` (when the depth is not positive) and hence from the
`end_batch` of the `set`/`batch` that triggered the flush. -/
theorem flush_cycle_exceeded (cb : Nat → Sch.Core → Sch.Core × Bool) (wf maxIter : Nat)
    (P : Sch.FState → Prop)
    (hP : ∀ s, P s → s.core.head ≠ none)
    (hstep : ∀ s, P s →
      P (Sch.passWalk cb wf s.core.head { s with core := { s.core with head := none } }))
    (hPd : ∀ (s : Sch.FState) (d : Int), P s → P { s with core := { s.core with batchDepth := d } })
    (st : Sch.FState) (hst : P st) :
    (∀ rem, Sch.flushLoop cb wf rem st = .error .reactiveCycleExceeded) ∧
    (st.core.batchDepth ≤ 0 →
      Sch.flush_effects cb wf maxIter st = .error .reactiveCycleExceeded) ∧
    (st.core.batchDepth = 1 →
      Sch.end_batch cb wf maxIter st = .error .reactiveCycleExceeded) := by
  refine ⟨fun rem => flushLoop_error cb wf P hP hstep rem st hst, ?_, ?_⟩
  · intro hd
    rw [Sch.flush_effects, if_neg (by omega)]
    exact flushLoop_error cb wf P hP hstep maxIter st hst
  · intro hd
    simp only [Sch.end_batch]
    rw [if_pos (by simp [hd])]
    rw [Sch.flush_effects, if_neg (by simp [hd])]
    exact flushLoop_error cb wf P hP hstep maxIter _ (hPd st _ hst)

/-- Witness for C7: the self-re-enqueueing callback `cbCycle` on state `stC7`
makes `_flush_effects` (budget `3`) report the cycle, and the same error
surfaces from `end_batch` after a `start_batch`. -/
theorem flush_cycle_exceeded_witness :
    Sch.flush_effects Sch.cbCycle 1 3 Sch.stC7 = .error .reactiveCycleExceeded ∧
    Sch.end_batch Sch.cbCycle 1 3 (Sch.start_batch Sch.stC7) = .error .reactiveCycleExceeded := by
  have hP : ∀ s, Sch.cycleInv s → s.core.head ≠ none := by
    intro s hs
    rw [hs.1]
    simp
  have hstep : ∀ s, Sch.cycleInv s →
      Sch.cycleInv (Sch.passWalk Sch.cbCycle 1 s.core.head
        { s with core := { s.core with head := none } }) := by
    intro s hs
    obtain ⟨h1, h2, h3, h4⟩ := hs
    rw [h1]
    simp only [Sch.passWalk]
    rw [show ({ s with core := { s.core with head := none } } : Sch.FState).core.next 0 =
      none from h2]
    simp only [Sch.passWalk, Sch.runOne, Sch.clearStep, Sch.cbCycle, Sch.enqueue_effect]
    simp [Sch.cycleInv, h2, h3, h4]
  have hPd : ∀ (s : Sch.FState) (d : Int), Sch.cycleInv s →
      Sch.cycleInv { s with core := { s.core with batchDepth := d } } := by
    intro s d hs
    exact hs
  refine ⟨?_, ?_⟩
  · exact (flush_cycle_exceeded Sch.cbCycle 1 3 Sch.cycleInv hP hstep hPd Sch.stC7
      (by constructor <;> simp [Sch.stC7, Sch.cycleInv])).2.1 (by decide)
  · exact (flush_cycle_exceeded Sch.cbCycle 1 3 Sch.cycleInv hP hstep hPd
      (Sch.start_batch Sch.stC7)
      (by constructor <;> simp [Sch.stC7, Sch.start_batch, Sch.cycleInv])).2.2 (by decide)

/-- Helper: a queue-preserving callback leaves the next pointers alone. -/
theorem runOne_next (cb : Nat → Sch.Core → Sch.Core × Bool)
    (hcb : ∀ x c, (cb x c).1.next = c.next ∧ (cb x c).1.flags = c.flags ∧
      (cb x c).1.head = c.head ∧ (cb x c).1.needsRun = c.needsRun)
    (cur : Nat) (st : Sch.FState) : (Sch.runOne cb cur st).core.next = st.core.next := by
  unfold Sch.runOne
  split
  · exact (hcb cur st.core).1
  · rfl

/-- Helper: a queue-preserving callback leaves the flags alone. -/
theorem runOne_flags (cb : Nat → Sch.Core → Sch.Core × Bool)
    (hcb : ∀ x c, (cb x c).1.next = c.next ∧ (cb x c).1.flags = c.flags ∧
      (cb x c).1.head = c.head ∧ (cb x c).1.needsRun = c.needsRun)
    (cur : Nat) (st : Sch.FState) : (Sch.runOne cb cur st).core.flags = st.core.flags := by
  unfold Sch.runOne
  split
  · exact (hcb cur st.core).2.1
  · rfl

/-- Helper: a queue-preserving callback leaves the head alone. -/
theorem runOne_head (cb : Nat → Sch.Core → Sch.Core × Bool)
    (hcb : ∀ x c, (cb x c).1.next = c.next ∧ (cb x c).1.flags = c.flags ∧
      (cb x c).1.head = c.head ∧ (cb x c).1.needsRun = c.needsRun)
    (cur : Nat) (st : Sch.FState) : (Sch.runOne cb cur st).core.head = st.core.head := by
  unfold Sch.runOne
  split
  · exact (hcb cur st.core).2.2.1
  · rfl

/-- Helper: a queue-preserving callback leaves `needsRun` alone. -/
theorem runOne_needsRun (cb : Nat → Sch.Core → Sch.Core × Bool)
    (hcb : ∀ x c, (cb x c).1.next = c.next ∧ (cb x c).1.flags = c.flags ∧
      (cb x c).1.head = c.head ∧ (cb x c).1.needsRun = c.needsRun)
    (cur : Nat) (st : Sch.FState) : (Sch.runOne cb cur st).core.needsRun = st.core.needsRun := by
  unfold Sch.runOne
  split
  · exact (hcb cur st.core).2.2.2
  · rfl

/-- Helper: the full behaviour of the inner flush walk under queue-preserving
callbacks — every live effect of the snapshot chain is attempted in order
(regardless of the raise results), NOTIFIED is cleared on the chain, DISPOSED
and `needsRun` are untouched, and off-chain flags are untouched. -/
theorem passWalk_isolation (cb : Nat → Sch.Core → Sch.Core × Bool)
    (hcb : ∀ x c, (cb x c).1.next = c.next ∧ (cb x c).1.flags = c.flags ∧
      (cb x c).1.head = c.head ∧ (cb x c).1.needsRun = c.needsRun) :
    ∀ (l : List Nat) (wf : Nat) (h : Option Nat) (s : Sch.FState),
      Sch.isChain s.core.next h l → l.Nodup → l.length ≤ wf →
      (Sch.passWalk cb wf h s).log =
        s.log ++ l.filter (fun x => !(s.core.flags x).disposed && s.core.needsRun x) ∧
      (Sch.passWalk cb wf h s).core.head = s.core.head ∧
      (∀ x, ((Sch.passWalk cb wf h s).core.flags x).disposed = (s.core.flags x).disposed) ∧
      (∀ x, (Sch.passWalk cb wf h s).core.needsRun x = s.core.needsRun x) ∧
      (∀ x ∈ l, ((Sch.passWalk cb wf h s).core.flags x).notified = false) ∧
      (∀ x, x ∉ l → (Sch.passWalk cb wf h s).core.flags x = s.core.flags x) := by
  intro l
  induction l with
  | nil =>
      intro wf h s hch hnd hlen
      have hh : h = none := hch
      subst hh
      cases wf <;> simp [Sch.passWalk]
  | cons a t ih =>
      intro wf h s hch hnd hlen
      obtain ⟨h1, h2⟩ := hch
      subst h1
      cases wf with
      | zero => simp at hlen
      | succ wf0 =>
          have hna : a ∉ t := (List.nodup_cons.1 hnd).1
          have hndt : t.Nodup := (List.nodup_cons.1 hnd).2
          have hlen0 : t.length ≤ wf0 := by simpa using hlen
          set s2 := Sch.runOne cb a (Sch.clearStep a s) with hs2
          have hred : Sch.passWalk cb (wf0 + 1) (some a) s =
              Sch.passWalk cb wf0 (s.core.next a) s2 := by
            rw [hs2]
            rfl
          have hnext2 : s2.core.next = fun i => if i = a then none else s.core.next i := by
            rw [hs2, runOne_next cb hcb a (Sch.clearStep a s)]
            rfl
          have hflags2 : s2.core.flags =
              fun i => if i = a then { s.core.flags i with notified := false }
                       else s.core.flags i := by
            rw [hs2, runOne_flags cb hcb a (Sch.clearStep a s)]
            rfl
          have hhead2 : s2.core.head = s.core.head := by
            rw [hs2, runOne_head cb hcb a (Sch.clearStep a s)]
            rfl
          have hneeds2 : s2.core.needsRun = s.core.needsRun := by
            rw [hs2, runOne_needsRun cb hcb a (Sch.clearStep a s)]
            rfl
          have hguard : (!((Sch.clearStep a s).core.flags a).disposed &&
              (Sch.clearStep a s).core.needsRun a) =
              (!(s.core.flags a).disposed && s.core.needsRun a) := by
            simp [Sch.clearStep]
          have hlog2 : s2.log = s.log ++
              (if (!(s.core.flags a).disposed && s.core.needsRun a) = true then [a] else []) := by
            rw [hs2]
            unfold Sch.runOne
            rw [hguard]
            split <;> simp [Sch.clearStep]
          have hch2 : Sch.isChain s2.core.next (s.core.next a) t := by
            apply isChain_congr s.core.next
            · intro x hx
              have hxa : x ≠ a := fun hxe => hna (hxe ▸ hx)
              rw [hnext2]
              simp [hxa]
            · exact h2
          obtain ⟨ihlog, ihhead, ihdis, ihneeds, ihnot, ihoff⟩ :=
            ih wf0 (s.core.next a) s2 hch2 hndt hlen0
          rw [hred]
          refine ⟨?_, ?_, ?_, ?_, ?_, ?_⟩
          · rw [ihlog, hlog2]
            have hfilter : t.filter (fun x => !(s2.core.flags x).disposed && s2.core.needsRun x)
                = t.filter (fun x => !(s.core.flags x).disposed && s.core.needsRun x) := by
              apply List.filter_congr
              intro x hx
              have hxa : x ≠ a := fun hxe => hna (hxe ▸ hx)
              rw [hflags2, hneeds2]
              simp [hxa]
            rw [hfilter, List.filter_cons]
            by_cases hpa : (!(s.core.flags a).disposed && s.core.needsRun a) = true
            · simp [hpa]
            · simp [hpa]
          · rw [ihhead, hhead2]
          · intro x
            rw [ihdis x, hflags2]
            by_cases hxa : x = a
            · subst hxa
              simp
            · simp [hxa]
          · intro x
            rw [ihneeds x, hneeds2]
          · intro x hx
            rcases List.mem_cons.1 hx with hxa | hxt
            · subst hxa
              rw [ihoff x hna, hflags2]
              simp
            · exact ihnot x hxt
          · intro x hx
            have hxa : x ≠ a := fun hxe => hx (hxe ▸ List.mem_cons_self a t)
            have hxt : x ∉ t := fun hc => hx (List.mem_cons_of_mem a hc)
            rw [ihoff x hxt, hflags2]
            simp [hxa]

/-- C8: during one flush with callbacks that may raise arbitrarily (the raise
results are completely unconstrained and never inspected, mirroring the
per-effect `try/except`), the flush still succeeds — no exception reaches the
caller of `set` — and every live pending effect of the snapshot is attempted
in order; DISPOSED flags are untouched (so the failing effect itself stays
eligible for future reruns) and NOTIFIED is cleared on every drained
effect. -/
theorem flush_effect_isolation (cb : Nat → Sch.Core → Sch.Core × Bool)
    (wf maxIter : Nat) (st : Sch.FState) (l : List Nat)
    (hcb : ∀ x c, (cb x c).1.next = c.next ∧ (cb x c).1.flags = c.flags ∧
      (cb x c).1.head = c.head ∧ (cb x c).1.needsRun = c.needsRun)
    (hch : Sch.isChain st.core.next st.core.head l) (hnd : l.Nodup)
    (hwf : l.length ≤ wf) (hmi : 1 ≤ maxIter) (hdep : st.core.batchDepth ≤ 0) :
    ∃ st2, Sch.flush_effects cb wf maxIter st = .ok st2 ∧
      st2.log = st.log ++ l.filter (fun x => !(st.core.flags x).disposed && st.core.needsRun x) ∧
      (∀ x, (st2.core.flags x).disposed = (st.core.flags x).disposed) ∧
      (∀ x ∈ l, (st2.core.flags x).notified = false) := by
  cases hhead : st.core.head with
  | none =>
      have hl : l = [] := by
        apply isChain_none st.core.next
        rw [← hhead]
        exact hch
      subst hl
      refine ⟨st, ?_, by simp, fun x => rfl, by simp⟩
      rw [Sch.flush_effects, if_neg (by omega)]
      exact flushLoop_ok_of_none cb wf maxIter st hhead
  | some a =>
      obtain ⟨rem, hrem⟩ : ∃ r, maxIter = r + 1 := ⟨maxIter - 1, by omega⟩
      subst hrem
      rw [Sch.flush_effects, if_neg (by omega)]
      simp only [Sch.flushLoop]
      rw [if_neg (by rw [hhead]; simp)]
      have hch' : Sch.isChain
          ({ st with core := { st.core with head := none } } : Sch.FState).core.next
          st.core.head l := hch
      obtain ⟨hlog, hhd, hdis, hneeds, hnot, hoff⟩ :=
        passWalk_isolation cb hcb l wf st.core.head
          { st with core := { st.core with head := none } } hch' hnd hwf
      rw [flushLoop_ok_of_none cb wf rem _ hhd]
      exact ⟨_, rfl, hlog, hdis, hnot⟩

/-- Witness for C8: the always-raising callback `cbRaise` on state `stC8`
with pending chain `[0, 1]` still yields a successful flush that attempted
both effects in order. -/
theorem flush_effect_isolation_witness :
    ∃ st2, Sch.flush_effects Sch.cbRaise 2 2 Sch.stC8 = .ok st2 ∧
      st2.log = [0, 1] := by
  obtain ⟨st2, hok, hlog, _, _⟩ :=
    flush_effect_isolation Sch.cbRaise 2 2 Sch.stC8 [0, 1]
      (fun x c => ⟨rfl, rfl, rfl, rfl⟩) (by decide) (by decide) (by decide) (by decide)
      (by decide)
  exact ⟨st2, hok, by rw [hlog]; rfl⟩

end SchThm

namespace SLThm

open SL

/-- Helper: scheduling preserves the `disposed` flag of every effect. -/
theorem sched_disposed (es : EffState) : es.sched.disposed = es.disposed := by
  unfold EffState.sched
  split <;> rfl

/-- Helper: a disposed effect is left untouched by `EffState.sched`. -/
theorem sched_of_disposed (es : EffState) (h : es.disposed = true) : es.sched = es := by
  unfold EffState.sched
  rw [h]
  rfl

/-- Helper: scheduling a non-disposed effect leaves it scheduled. -/
theorem sched_scheduled_of_not_disposed (es : EffState) (h : es.disposed = false) :
    es.sched.scheduled = true := by
  unfold EffState.sched
  rw [h]
  cases hs : es.scheduled <;> simp [hs]

/-- Helper: `dispose` on an already-disposed effect returns the state as is. -/
theorem dispose_of_disposed {V : Type} (st : State V) (e : Nat)
    (h : (st.effs e).disposed = true) : Effect.dispose st e = st := by
  rw [Effect.dispose, if_pos h]

/-- Helper: after `dispose`, the effect's `disposed` flag is set. -/
theorem dispose_disposed {V : Type} (st : State V) (e : Nat) :
    ((Effect.dispose st e).effs e).disposed = true := by
  by_cases h : (st.effs e).disposed = true
  · rw [dispose_of_disposed st e h]
    exact h
  · simp [Effect.dispose, h]

/-- C10: `Effect.dispose` is idempotent — a second `dispose` on the same
effect changes nothing at all. -/
theorem dispose_idempotent {V : Type} (st : State V) (e : Nat) :
    Effect.dispose (Effect.dispose st e) e = Effect.dispose st e :=
  dispose_of_disposed _ _ (dispose_disposed st e)

/-- C1: `Signal.set` with a value equal to the stored one leaves the whole
state unchanged (so no effect gets scheduled); with a different value it
stores the value, schedules every non-disposed subscriber, and leaves every
non-subscriber's record untouched. -/
theorem signal_set_equality_gate {V : Type} [DecidableEq V] (st : State V) (s : Nat) (v : V) :
    ((st.sigs s).value = v → Signal.set st s v = st) ∧
    ((st.sigs s).value ≠ v →
      ((Signal.set st s v).sigs s).value = v ∧
      (∀ e ∈ (st.sigs s).subscribers, (st.effs e).disposed = false →
        ((Signal.set st s v).effs e).scheduled = true) ∧
      (∀ e, e ∉ (st.sigs s).subscribers → (Signal.set st s v).effs e = st.effs e)) := by
  constructor
  · intro h
    rw [Signal.set, if_pos h]
  · intro h
    refine ⟨?_, ?_, ?_⟩
    · simp [Signal.set, if_neg h]
    · intro e he hd
      simp only [Signal.set, if_neg h, if_pos he]
      exact sched_scheduled_of_not_disposed _ hd
    · intro e he
      simp only [Signal.set, if_neg h, if_neg he]

/-- Witness for C1: on the concrete heap `stW`, setting signal `0` to its
current value `1` is a no-op, and setting it to `5` stores `5` and schedules
subscriber `0`. -/
theorem signal_set_equality_gate_witness :
    Signal.set stW 0 1 = stW ∧
    ((Signal.set stW 0 5).sigs 0).value = 5 ∧
    ((Signal.set stW 0 5).effs 0).scheduled = true :=
  ⟨(signal_set_equality_gate stW 0 1).1 (by decide),
   ((signal_set_equality_gate stW 0 5).2 (by decide)).1,
   ((signal_set_equality_gate stW 0 5).2 (by decide)).2.1 0 (by decide) (by decide)⟩

/-- Helper: accumulating inserts over a list builds the union with its
`toFinset`. -/
theorem foldl_insert_eq (l : List Nat) :
    ∀ acc : Finset Nat, l.foldl (fun a s => insert s a) acc = acc ∪ l.toFinset := by
  induction l with
  | nil => intro acc; simp
  | cons a t ih =>
      intro acc
      rw [List.foldl_cons, ih (insert a acc), List.toFinset_cons,
        Finset.insert_union, Finset.union_insert]

/-- Helper: a record update writing the value a field already has is the
identity. -/
theorem update_nd_self (es : EffState) (x : Option (Finset Nat))
    (h : es.newDependencies = x) : ({ es with newDependencies := x } : EffState) = es := by
  cases es
  subst h
  rfl

/-- Helper: the first half of `_execute` on a live effect clears `_scheduled`,
opens the read set and counts the run. -/
theorem execStart_eq {V : Type} (st : State V) (e : Nat)
    (h : (st.effs e).disposed = false) :
    Effect.execStart st e =
      { st with effs := fun i => if i = e then
          { st.effs i with scheduled := false, newDependencies := some ∅,
                           runs := (st.effs i).runs + 1 }
        else st.effs i } := by
  simp only [Effect.execStart, if_pos rfl, h, Bool.false_eq_true, if_false]
  apply State.ext
  · rfl
  · funext i
    by_cases hi : i = e
    · subst hi
      simp
    · simp [hi]

/-- Helper: the coroutine reading the signals in `reads` accumulates exactly
those edges in `_new_dependencies` and changes nothing else. -/
theorem fold_reads_eq {V : Type} (reads : List Nat) :
    ∀ (st : State V) (e : Nat) (acc : Finset Nat),
      (st.effs e).disposed = false → (st.effs e).newDependencies = some acc →
      reads.foldl (fun a s => (Signal.get a s (some e)).2) st =
        { st with effs := fun i => if i = e then
            { st.effs i with newDependencies := some (acc ∪ reads.toFinset) }
          else st.effs i } := by
  induction reads with
  | nil =>
      intro st e acc hd hnd
      simp only [List.foldl_nil, List.toFinset_nil, Finset.union_empty]
      apply State.ext
      · rfl
      · funext i
        by_cases hi : i = e
        · subst hi
          dsimp only
          rw [if_pos rfl]
          exact (update_nd_self _ _ hnd).symm
        · simp [hi]
  | cons r t ih =>
      intro st e acc hd hnd
      rw [List.foldl_cons]
      have hstep : (Signal.get st r (some e)).2 =
          { st with effs := fun i => if i = e then
              { st.effs i with newDependencies := some (insert r acc) }
            else st.effs i } := by
        simp only [Signal.get]
        rw [Effect.add_dependency, if_neg (by simp [hd]), hnd]
      rw [hstep]
      rw [ih _ e (insert r acc) (by simp [hd]) (by simp)]
      apply State.ext
      · rfl
      · funext i
        by_cases hi : i = e
        · subst hi
          simp [List.toFinset_cons, Finset.insert_union, Finset.union_insert]
        · simp [hi]

/-- Helper: full characterisation of an uninterrupted `_execute` run on a
live effect — the dependency set is replaced by the signals read, stale
subscriptions are dropped, new ones are added, the run is counted. -/
theorem executeRun_spec {V : Type} (st : State V) (e : Nat) (reads : List Nat)
    (h : (st.effs e).disposed = false) :
    ((Effect.executeRun st e reads).effs e).dependencies = reads.toFinset ∧
    ((Effect.executeRun st e reads).effs e).runs = (st.effs e).runs + 1 ∧
    (∀ s ∈ (st.effs e).dependencies, s ∉ reads.toFinset →
      e ∉ ((Effect.executeRun st e reads).sigs s).subscribers) ∧
    (∀ s ∈ reads.toFinset, s ∉ (st.effs e).dependencies →
      e ∈ ((Effect.executeRun st e reads).sigs s).subscribers) := by
  have hmid : Effect.executeRun st e reads =
      Effect.execFinish
        { st with effs := fun i => if i = e then
            { st.effs i with scheduled := false, newDependencies := some reads.toFinset,
                             runs := (st.effs i).runs + 1 }
          else st.effs i } e := by
    unfold Effect.executeRun
    rw [execStart_eq st e h]
    rw [fold_reads_eq reads _ e ∅ (by simp [h]) (by simp)]
    congr 1
    apply State.ext
    · rfl
    · funext i
      by_cases hi : i = e
      · subst hi
        simp [Finset.empty_union]
      · simp [hi]
  rw [hmid]
  simp only [Effect.execFinish, if_pos rfl, h, Bool.false_eq_true, if_false]
  refine ⟨by simp, by simp, ?_, ?_⟩
  · intro s hs hns
    have hnl : s ∉ reads := fun hc => hns (List.mem_toFinset.2 hc)
    simp [hs, hnl, Finset.not_mem_erase]
  · intro s hs hns
    have hl : s ∈ reads := List.mem_toFinset.1 hs
    simp [hl, hns]

/-- C2: after an uninterrupted run of `Effect._execute` on a live effect, the
dependency set equals exactly the signals read during the run; every old
dependency not read this run has the effect erased from its subscribers, and
every newly read signal has it inserted. -/
theorem execute_replaces_dependencies {V : Type} (st : State V) (e : Nat)
    (reads : List Nat) (h : (st.effs e).disposed = false) :
    ((Effect.executeRun st e reads).effs e).dependencies = reads.toFinset ∧
    (∀ s ∈ (st.effs e).dependencies, s ∉ reads.toFinset →
      e ∉ ((Effect.executeRun st e reads).sigs s).subscribers) ∧
    (∀ s ∈ reads.toFinset, s ∉ (st.effs e).dependencies →
      e ∈ ((Effect.executeRun st e reads).sigs s).subscribers) :=
  ⟨(executeRun_spec st e reads h).1, (executeRun_spec st e reads h).2.2.1,
    (executeRun_spec st e reads h).2.2.2⟩

/-- Witness for C2: on the concrete heap `stW2`, effect `0` (depending on
signal `0`) reruns reading only signal `1`: its dependency set becomes `{1}`,
it is removed from signal `0`'s subscribers and added to signal `1`'s. -/
theorem execute_replaces_dependencies_witness :
    ((Effect.executeRun stW2 0 [1]).effs 0).dependencies = [1].toFinset ∧
    0 ∉ ((Effect.executeRun stW2 0 [1]).sigs 0).subscribers ∧
    0 ∈ ((Effect.executeRun stW2 0 [1]).sigs 1).subscribers :=
  ⟨(execute_replaces_dependencies stW2 0 [1] (by decide)).1,
   (execute_replaces_dependencies stW2 0 [1] (by decide)).2.1 0 (by decide) (by decide),
   (execute_replaces_dependencies stW2 0 [1] (by decide)).2.2 1 (by decide) (by decide)⟩

/-- C4 counterexample: creating an `Effect` does not run its callback at all —
on the concrete heap `stW` the fresh effect's run counter is `0`, not `1` as
the claim states. -/
theorem effect_creation_no_run_cex :
    ((createEffect stW 0).effs 0).runs = 0 ∧ ¬ ((createEffect stW 0).effs 0).runs = 1 := by
  decide

/-- C4 (amended): creating an `Effect` stores the callback without running it
(zero runs, unscheduled, empty dependency set); an explicit `schedule` marks
it scheduled but still runs nothing; the first execution of the scheduled
task runs the callback once and establishes the initial dependency set as
exactly the signals read. -/
theorem effect_creation_deferred {V : Type} (st : State V) (e : Nat) (reads : List Nat) :
    ((createEffect st e).effs e).runs = 0 ∧
    ((createEffect st e).effs e).scheduled = false ∧
    ((createEffect st e).effs e).dependencies = ∅ ∧
    ((Effect.schedule (createEffect st e) e).effs e).scheduled = true ∧
    ((Effect.schedule (createEffect st e) e).effs e).runs = 0 ∧
    ((Effect.executeRun (Effect.schedule (createEffect st e) e) e reads).effs e).runs = 1 ∧
    ((Effect.executeRun (Effect.schedule (createEffect st e) e) e reads).effs e).dependencies
      = reads.toFinset := by
  have hcr : (createEffect st e).effs e = Effect.init := by
    simp [createEffect]
  have hsc : (Effect.schedule (createEffect st e) e).effs e =
      { Effect.init with scheduled := true } := by
    simp only [Effect.schedule, if_pos rfl, hcr]
    rfl
  have hd : ((Effect.schedule (createEffect st e) e).effs e).disposed = false := by
    rw [hsc]
    rfl
  refine ⟨?_, ?_, ?_, ?_, ?_, ?_, ?_⟩
  · simp [hcr, Effect.init]
  · simp [hcr, Effect.init]
  · simp [hcr, Effect.init]
  · simp [hsc]
  · simp [hsc, Effect.init]
  · rw [(executeRun_spec _ e reads hd).2.1, hsc]
    rfl
  · exact (executeRun_spec _ e reads hd).1

/-- Helper: scheduling preserves the run counter. -/
theorem sched_runs (es : EffState) : es.sched.runs = es.runs := by
  unfold EffState.sched
  split <;> rfl

/-- Helper: `schedule` on a disposed effect returns the state unchanged. -/
theorem schedule_of_disposed {V : Type} (st : State V) (e : Nat)
    (h : (st.effs e).disposed = true) : Effect.schedule st e = st := by
  apply State.ext
  · rfl
  · funext i
    by_cases hi : i = e
    · subst hi
      simp [Effect.schedule, sched_of_disposed _ h]
    · simp [Effect.schedule, hi]

/-- Helper: `dispose` removes the effect from every subscriber set, given the
reachability invariants that subscriptions are tracked in `_dependencies` and
that no disposed effect is subscribed anywhere. -/
theorem dispose_clears {V : Type} (st : State V) (e : Nat)
    (hsub : ∀ e' s, e' ∈ (st.sigs s).subscribers → s ∈ (st.effs e').dependencies)
    (hdisinv : ∀ e' s, e' ∈ (st.sigs s).subscribers → (st.effs e').disposed = false) :
    ∀ s, e ∉ ((Effect.dispose st e).sigs s).subscribers := by
  intro s
  by_cases hd : (st.effs e).disposed = true
  · rw [dispose_of_disposed st e hd]
    intro hc
    rw [hdisinv e s hc] at hd
    exact absurd hd (by simp)
  · intro hc
    unfold Effect.dispose at hc
    rw [if_neg hd] at hc
    dsimp only at hc
    by_cases hs : s ∈ (st.effs e).dependencies
    · rw [if_pos hs] at hc
      exact absurd hc (Finset.not_mem_erase e _)
    · rw [if_neg hs] at hc
      exact hs (hsub e s hc)

/-- Helper: once an effect is disposed and unsubscribed, any single operation
keeps it disposed and unsubscribed and never runs its callback. -/
theorem op_preserves_dead {V : Type} [DecidableEq V] (e : Nat) (st : State V)
    (hdis : (st.effs e).disposed = true) (hout : ∀ s, e ∉ (st.sigs s).subscribers)
    (o : Op V) :
    ((applyOp st o).effs e).disposed = true ∧
    (∀ s, e ∉ ((applyOp st o).sigs s).subscribers) ∧
    ((applyOp st o).effs e).runs = (st.effs e).runs := by
  cases o with
  | schedule e' =>
      refine ⟨?_, fun s => hout s, ?_⟩
      · simp only [applyOp, Effect.schedule]
        by_cases hi : e = e'
        · subst hi
          simp [sched_disposed, hdis]
        · simp [hi, hdis]
      · simp only [applyOp, Effect.schedule]
        by_cases hi : e = e'
        · subst hi
          simp [sched_runs]
        · simp [hi]
  | execStart e' =>
      simp only [applyOp, Effect.execStart, eq_self_iff_true, if_true]
      by_cases hi : e = e'
      · subst hi
        rw [if_pos hdis]
        exact ⟨by simp [hdis], fun s => hout s, by simp⟩
      · by_cases hg : (st.effs e').disposed = true
        · rw [if_pos hg]
          exact ⟨by simp [hi, hdis], fun s => hout s, by simp [hi]⟩
        · rw [if_neg hg]
          exact ⟨by simp [hi, hdis], fun s => hout s, by simp [hi]⟩
  | read e' s' =>
      simp only [applyOp, Signal.get]
      unfold Effect.add_dependency
      split
      · exact ⟨hdis, hout, rfl⟩
      · split
        · exact ⟨hdis, hout, rfl⟩
        · refine ⟨?_, fun s => hout s, ?_⟩
          · by_cases hi : e = e'
            · subst hi
              simp [hdis]
            · simp [hi, hdis]
          · by_cases hi : e = e'
            · subst hi
              simp
            · simp [hi]
  | execFinish e' =>
      simp only [applyOp]
      unfold Effect.execFinish
      by_cases hi : e = e'
      · subst hi
        rw [if_pos hdis]
        exact ⟨hdis, hout, rfl⟩
      · split
        · exact ⟨hdis, hout, rfl⟩
        · split
          · exact ⟨hdis, hout, rfl⟩
          · next nd hmd =>
              refine ⟨by simp [hi, hdis], ?_, by simp [hi]⟩
              intro s
              have h1 := hout s
              dsimp only
              by_cases hc2 : s ∈ nd \ (st.effs e').dependencies
              · rw [if_pos hc2]
                intro hm
                rcases Finset.mem_insert.1 hm with hee | hm2
                · exact hi hee
                · by_cases hc1 : s ∈ (st.effs e').dependencies \ nd
                  · rw [if_pos hc1] at hm2
                    exact h1 (Finset.mem_of_mem_erase hm2)
                  · rw [if_neg hc1] at hm2
                    exact h1 hm2
              · rw [if_neg hc2]
                by_cases hc1 : s ∈ (st.effs e').dependencies \ nd
                · rw [if_pos hc1]
                  exact fun hm => h1 (Finset.mem_of_mem_erase hm)
                · rw [if_neg hc1]
                  exact h1
  | dispose e' =>
      simp only [applyOp]
      unfold Effect.dispose
      by_cases hi : e = e'
      · subst hi
        rw [if_pos hdis]
        exact ⟨hdis, hout, rfl⟩
      · split
        · exact ⟨hdis, hout, rfl⟩
        · refine ⟨by simp [hi, hdis], ?_, by simp [hi]⟩
          intro s
          have h1 := hout s
          dsimp only
          by_cases hc : s ∈ (st.effs e').dependencies
          · rw [if_pos hc]
            exact fun hm => h1 (Finset.mem_of_mem_erase hm)
          · rw [if_neg hc]
            exact h1
  | setSig s' v =>
      simp only [applyOp]
      unfold Signal.set
      split
      · exact ⟨hdis, hout, rfl⟩
      · refine ⟨?_, ?_, ?_⟩
        · dsimp only
          by_cases hm : e ∈ (st.sigs s').subscribers
          · rw [if_pos hm, sched_disposed]
            exact hdis
          · rw [if_neg hm]
            exact hdis
        · intro s
          have h1 := hout s
          dsimp only
          by_cases hs : s = s'
          · subst hs
            rw [if_pos rfl]
            exact h1
          · rw [if_neg hs]
            exact h1
        · dsimp only
          by_cases hm : e ∈ (st.sigs s').subscribers
          · rw [if_pos hm, sched_runs]
          · rw [if_neg hm]

/-- Helper: the single-operation preservation extended to whole traces. -/
theorem applyOps_preserves_dead {V : Type} [DecidableEq V] (e : Nat) :
    ∀ (ops : List (Op V)) (st : State V),
      (st.effs e).disposed = true → (∀ s, e ∉ (st.sigs s).subscribers) →
      ((applyOps st ops).effs e).disposed = true ∧
      (∀ s, e ∉ ((applyOps st ops).sigs s).subscribers) ∧
      ((applyOps st ops).effs e).runs = (st.effs e).runs := by
  intro ops
  induction ops with
  | nil => intro st h1 h2; exact ⟨h1, h2, rfl⟩
  | cons o t ih =>
      intro st h1 h2
      obtain ⟨a1, a2, a3⟩ := op_preserves_dead e st h1 h2 o
      obtain ⟨b1, b2, b3⟩ := ih (applyOp st o) a1 a2
      rw [show applyOps st (o :: t) = applyOps (applyOp st o) t from rfl]
      exact ⟨b1, b2, by rw [b3, a3]⟩

/-- C9: after `dispose` returns — also for an effect whose execution is in
flight, whose tail `execFinish` then appears among the later trace
operations — the effect is in no signal's subscriber set and stays out of it,
stays disposed, its callback never runs again (the run counter is frozen),
any later `schedule` call is a no-op, and the scheduler's flush walk never
invokes a DISPOSED effect's callback. -/
theorem dispose_permanent {V : Type} [DecidableEq V] (st : State V) (e : Nat)
    (hsub : ∀ e' s, e' ∈ (st.sigs s).subscribers → s ∈ (st.effs e').dependencies)
    (hdisinv : ∀ e' s, e' ∈ (st.sigs s).subscribers → (st.effs e').disposed = false) :
    (∀ s, e ∉ ((Effect.dispose st e).sigs s).subscribers) ∧
    (∀ ops : List (Op V),
      ((applyOps (Effect.dispose st e) ops).effs e).disposed = true ∧
      (∀ s, e ∉ ((applyOps (Effect.dispose st e) ops).sigs s).subscribers) ∧
      ((applyOps (Effect.dispose st e) ops).effs e).runs
        = ((Effect.dispose st e).effs e).runs ∧
      Effect.schedule (applyOps (Effect.dispose st e) ops) e
        = applyOps (Effect.dispose st e) ops) ∧
    (∀ (cb : Nat → Sch.Core → Sch.Core × Bool) (cur : Nat) (s : Sch.FState),
      (s.core.flags cur).disposed = true → Sch.runOne cb cur s = s) := by
  have h0 : ∀ s, e ∉ ((Effect.dispose st e).sigs s).subscribers :=
    dispose_clears st e hsub hdisinv
  have hd0 : ((Effect.dispose st e).effs e).disposed = true := dispose_disposed st e
  refine ⟨h0, ?_, ?_⟩
  · intro ops
    obtain ⟨ha, hb, hc⟩ := applyOps_preserves_dead e ops (Effect.dispose st e) hd0 h0
    exact ⟨ha, hb, hc, schedule_of_disposed _ e ha⟩
  · intro cb cur s hdis
    unfold Sch.runOne
    rw [if_neg (by simp [hdis])]

/-- Witness for C9: on the concrete heap `stW2`, after disposing effect `0`
and running the sample trace `opsW` (which tries to schedule, rerun and
rewrite), the effect is still unsubscribed from signal `0`, still disposed,
and its run counter never moved. -/
theorem dispose_permanent_witness :
    0 ∉ ((Effect.dispose stW2 0).sigs 0).subscribers ∧
    ((applyOps (Effect.dispose stW2 0) opsW).effs 0).disposed = true ∧
    0 ∉ ((applyOps (Effect.dispose stW2 0) opsW).sigs 0).subscribers ∧
    ((applyOps (Effect.dispose stW2 0) opsW).effs 0).runs
      = ((Effect.dispose stW2 0).effs 0).runs := by
  have hsub : ∀ e' s, e' ∈ (stW2.sigs s).subscribers → s ∈ (stW2.effs e').dependencies := by
    intro e' s h
    by_cases hs : s = 0
    · subst hs
      simp [stW2] at h
      subst h
      simp [stW2]
    · simp [stW2, hs] at h
  have hdisinv : ∀ e' s, e' ∈ (stW2.sigs s).subscribers → (stW2.effs e').disposed = false := by
    intro e' s h
    by_cases hs : s = 0
    · subst hs
      simp [stW2] at h
      subst h
      simp [stW2, Effect.init]
    · simp [stW2, hs] at h
  exact ⟨(dispose_permanent stW2 0 hsub hdisinv).1 0,
    ((dispose_permanent stW2 0 hsub hdisinv).2.1 opsW).1,
    ((dispose_permanent stW2 0 hsub hdisinv).2.1 opsW).2.1 0,
    ((dispose_permanent stW2 0 hsub hdisinv).2.1 opsW).2.2.1⟩

end SLThm

namespace BatchThm

open Batching

/-- Helper: running any program leaves the batch depth where it started
(every increment is matched by a decrement). -/
theorem runB_depth : ∀ (p : BProg) (d : Int) (f : Nat), (runB p (d, f)).1 = d := by
  intro p
  induction p with
  | skip => intro d f; rfl
  | write =>
      intro d f
      simp only [runB]
      split <;> simp
  | scope p ih =>
      intro d f
      simp only [runB]
      have h1 := ih (d + 1) f
      split <;> simp <;> omega
  | seq p q ihp ihq =>
      intro d f
      simp only [runB]
      have h2 := ihq (runB p (d, f)).1 (runB p (d, f)).2
      rw [Prod.mk.eta] at h2
      rw [h2, ihp d f]

/-- Helper: at depth at least `1` (inside an enclosing batch), running any
program neither flushes nor changes the depth. -/
theorem runB_deep : ∀ (p : BProg) (d : Int) (f : Nat), 1 ≤ d → runB p (d, f) = (d, f) := by
  intro p
  induction p with
  | skip => intro d f h; rfl
  | write =>
      intro d f h
      simp only [runB]
      rw [if_neg (by omega)]
      have hd : d + 1 - 1 = d := by omega
      rw [hd]
  | scope p ih =>
      intro d f h
      simp only [runB]
      rw [ih (d + 1) f (by omega)]
      simp only []
      rw [if_neg (by simp; omega)]
      have hd : (d + 1 : Int) - 1 = d := by omega
      simp [hd]
  | seq p q ihp ihq =>
      intro d f h
      simp only [runB]
      rw [ihp d f h, ihq d f h]

/-- Helper: the depth never drops below its starting value at any point of
the run. -/
theorem traceB_ge : ∀ (p : BProg) (d : Int), ∀ x ∈ traceB p d, d ≤ x := by
  intro p
  induction p with
  | skip => intro d x hx; simp [traceB] at hx
  | write =>
      intro d x hx
      simp [traceB] at hx
      rcases hx with h | h <;> omega
  | scope p ih =>
      intro d x hx
      simp [traceB] at hx
      rcases hx with h | h | h
      · omega
      · have := ih (d + 1) x h
        omega
      · rw [runB_depth p (d + 1) 0] at h
        omega
  | seq p q ihp ihq =>
      intro d x hx
      simp [traceB] at hx
      rcases hx with h | h
      · exact ihp d x h
      · have := ihq ((runB p (d, 0)).1) x h
        rw [runB_depth p d 0] at this
        exact this

/-- C3: a batch scope entered at depth `0` performs exactly one flush, at its
own exit; at any positive depth (i.e. inside an enclosing scope) no nesting
of scopes and writes flushes or changes the depth; the depth never goes below
`0` when starting from a non-negative depth; and `_flush_effects` is a no-op
while the batch depth is positive. -/
theorem batch_single_flush :
    (∀ (p : BProg) (f : Nat), runB (BProg.scope p) (0, f) = (0, f + 1)) ∧
    (∀ (p : BProg) (d : Int) (f : Nat), 1 ≤ d → runB p (d, f) = (d, f)) ∧
    (∀ (p : BProg) (d : Int), 0 ≤ d → ∀ x ∈ traceB p d, 0 ≤ x) ∧
    (∀ (cb : Nat → Sch.Core → Sch.Core × Bool) (wf maxIter : Nat) (s : Sch.FState),
      0 < s.core.batchDepth → Sch.flush_effects cb wf maxIter s = .ok s) := by
  refine ⟨?_, runB_deep, ?_, ?_⟩
  · intro p f
    simp only [runB]
    rw [runB_deep p (0 + 1) f (by omega)]
    norm_num
  · intro p d hd x hx
    have := traceB_ge p d x hx
    omega
  · intro cb wf maxIter s h
    rw [Sch.flush_effects, if_pos h]

/-- Witness for C3: a scope containing a write and a nested scope flushes
exactly once; a bare write at depth `2` does not flush; `_flush_effects`
returns unchanged on the depth-2 state `stC3`. -/
theorem batch_single_flush_witness :
    runB (BProg.scope (BProg.seq BProg.write (BProg.scope BProg.write))) (0, 0) = (0, 1) ∧
    runB BProg.write (2, 5) = (2, 5) ∧
    Sch.flush_effects Sch.cbRaise 1 1 Sch.stC3 = .ok Sch.stC3 :=
  ⟨batch_single_flush.1 (BProg.seq BProg.write (BProg.scope BProg.write)) 0,
   batch_single_flush.2.1 BProg.write 2 5 (by decide),
   batch_single_flush.2.2.2 Sch.cbRaise 1 1 Sch.stC3 (by decide)⟩

end BatchThm

namespace RThm

open RModel

/-- C5: on a dirty Computed whose compute function raises, a read returns the
configured default, cached exactly like a real result and fed to the same
`changedFlag` equality-gated propagation decision; a dirty Computed whose
compute function succeeds returns and caches the real value (so once inputs
let it succeed again, real values resume); and without a configured default a
failing evaluation surfaces `ComputeFailed` to the reader. -/
theorem computed_default_fallback {I T : Type} :
    (∀ (c : Computed I T) (inp : I) (d : T),
      c.default = some d → c.compute inp = none → c.dirty = true →
      getComputed c inp = .ok (d, changedFlag c d, { c with value := some d, dirty := false })) ∧
    (∀ (c : Computed I T) (inp : I) (v : T), c.dirty = true → c.compute inp = some v →
      getComputed c inp = .ok (v, changedFlag c v, { c with value := some v, dirty := false })) ∧
    (∀ (c : Computed I T) (inp : I), c.default = none → c.compute inp = none → c.dirty = true →
      getComputed c inp = .error .computeFailed) := by
  refine ⟨?_, ?_, ?_⟩
  · intro c inp d hdef hfail hdirty
    simp [getComputed, hdirty, evalComputed, hfail, hdef]
  · intro c inp v hdirty hsucc
    simp [getComputed, hdirty, evalComputed, hsucc]
  · intro c inp hdef hfail hdirty
    simp [getComputed, hdirty, evalComputed, hfail, hdef]

/-- Witness for C5: the concrete divider `cW5` (default `9`, cached `50`,
dirty) returns `9` on the failing input `0`, and after caching the default a
re-evaluation on input `4` returns the real value `25`. -/
theorem computed_default_fallback_witness :
    getComputed cW5 0 = .ok (9, changedFlag cW5 9, { cW5 with value := some 9, dirty := false }) ∧
    getComputed (markDirty { cW5 with value := some 9, dirty := false }) 4 =
      .ok (25, changedFlag (markDirty { cW5 with value := some 9, dirty := false }) 25,
        { markDirty { cW5 with value := some 9, dirty := false } with
            value := some 25, dirty := false }) :=
  ⟨(@computed_default_fallback Nat Nat).1 cW5 0 9 (by decide) (by decide) (by decide),
   (@computed_default_fallback Nat Nat).2.1 (markDirty { cW5 with value := some 9, dirty := false })
     4 25 (by decide) (by decide)⟩

end RThm
